import Mathlib

/-!
Verification development for the log-parsing and result-aggregation pipeline
of the artifact-evaluation harness (analyze_kernel_time.py,
analyze_ablation_kernel_time.py, calculate_end_to_end_overhead.py,
calculate_kernel_only_overhead.py).

Lines of a log file are modelled as `List Char` (without the trailing
newline).  Python floats are modelled as exact rationals `ℚ`; the fragment of
Python's `float()` accepted here is the plain decimal-literal fragment
(optional sign, digits with at most one dot), which covers every string the
scripts ever pass to `float()` (captures of `[\d.]+` regex groups and plain
CSV cells).  Regular-expression searches are translated pattern by pattern
into executable scanners whose backtracking behaviour matches Python's `re`
on the concrete patterns used by the source.
-/

namespace KernelTime

/-- Python's `\s` character class (ASCII part): space, tab, newline, carriage
return, vertical tab, form feed. -/
def pySpace (c : Char) : Bool :=
  c = ' ' || c = '\t' || c = '\n' || c = '\r' || c = '\x0b' || c = '\x0c'

/-- Python's `\w` character class (ASCII part): letters, digits, underscore. -/
def pyWord (c : Char) : Bool :=
  c.isAlphanum || c = '_'

/-- The character class `[\d.]` used by the metric patterns. -/
def digitDot (c : Char) : Bool :=
  c.isDigit || c = '.'

/-- Model of Python `str.strip()`: remove whitespace from both ends. -/
def pyStrip (l : List Char) : List Char :=
  ((l.dropWhile pySpace).reverse.dropWhile pySpace).reverse

/-- Numeric value of a digit string (as produced by `int()` on a `\d+`
capture). -/
def natOfDigits (l : List Char) : Nat :=
  l.foldl (fun a c => 10 * a + (c.toNat - 48)) 0

/-- Model of Python `float()` on the decimal-literal fragment: optional
surrounding whitespace, optional sign, then digits containing at most one
dot and at least one digit.  Returns `none` exactly when `float()` raises
`ValueError` on such inputs (e.g. on `"1.2.3"`, `"."`, `""`); the value
`sign * (intpart + fracpart / 10 ^ fracdigits)` is assembled as a single
`mkRat`. -/
def pyFloat (l : List Char) : Option ℚ :=
  let l := pyStrip l
  let sl : ℤ × List Char :=
    match l with
    | '-' :: r => (-1, r)
    | '+' :: r => (1, r)
    | _ => (1, l)
  let ip := sl.2.takeWhile Char.isDigit
  match sl.2.dropWhile Char.isDigit with
  | [] => if ip.isEmpty then none else some (mkRat (sl.1 * (natOfDigits ip : ℤ)) 1)
  | '.' :: fp =>
      if fp.all Char.isDigit && !(ip.isEmpty && fp.isEmpty) then
        some (mkRat
          (sl.1 * ((natOfDigits ip : ℤ) * 10 ^ fp.length + (natOfDigits fp : ℤ)))
          (10 ^ fp.length))
      else none
  | _ => none

/-- Consume an exact literal at the head of the input, returning the rest. -/
def dropLit : List Char → List Char → Option (List Char)
  | [], cs => some cs
  | _ :: _, [] => none
  | a :: as, c :: cs => if c = a then dropLit as cs else none

/-- `re.search` position scan: try the anchored matcher at every suffix,
leftmost first (Python tries every start offset in order). -/
def scanFor (f : List Char → Option α) : List Char → Option α
  | [] => f []
  | c :: cs =>
    match f (c :: cs) with
    | some a => some a
    | none => scanFor f cs

/-- Anchored matcher for `Test Number:\s+(\d+)`: literal, then at least one
whitespace, then the maximal digit run is captured. -/
def numberAt (cs : List Char) : Option (List Char) := do
  let r ← dropLit "Test Number:".data cs
  if (r.takeWhile pySpace).isEmpty then none else
  let d := (r.dropWhile pySpace).takeWhile Char.isDigit
  if d.isEmpty then none else some d

/-- `re.search(r'Test Number:\s+(\d+)', line)`, returning the captured
digit run. -/
def matchTestNumber (line : List Char) : Option (List Char) :=
  scanFor numberAt line

/-- Anchored matcher for `Test:\s+(.+)` on a line (no `'\n'` present):
literal, at least one whitespace, then `(.+)` captures the rest; when the
rest is all whitespace the greedy `\s+` backtracks one character and `(.+)`
captures the final whitespace character. -/
def nameAt (cs : List Char) : Option (List Char) := do
  let r ← dropLit "Test:".data cs
  let w := r.takeWhile pySpace
  let r2 := r.dropWhile pySpace
  if w.isEmpty then none
  else if !r2.isEmpty then some r2
  else if 2 ≤ w.length then some (w.drop (w.length - 1))
  else none

/-- `re.search(r'Test:\s+(.+)', line)`, returning the raw capture. -/
def matchTestName (line : List Char) : Option (List Char) :=
  scanFor nameAt line

/-- Anchored matcher for `(test_\w+\.py::\S+)`. -/
def pytestAt (cs : List Char) : Option (List Char) := do
  let r ← dropLit "test_".data cs
  let w := r.takeWhile pyWord
  if w.isEmpty then none else
  let r2 ← dropLit ".py::".data (r.dropWhile pyWord)
  let s := r2.takeWhile (fun c => !pySpace c)
  if s.isEmpty then none
  else some ("test_".data ++ w ++ ".py::".data ++ s)

/-- `re.search(r'(test_\w+\.py::\S+)', line)`. -/
def matchPytest (line : List Char) : Option (List Char) :=
  scanFor pytestAt line

/-- Anchored matcher for pattern 1 of `parse_baseline_compute_sanitizer`:
`\[liger\]\[triton\]\s+kernel=(\S+)\s+cpu_launch_ms=[\d.]+\s+gpu_time_ms=([\d.]+)`.
Returns (kernel capture, gpu time capture). -/
def p1At (cs : List Char) : Option (List Char × List Char) := do
  let r ← dropLit "[liger][triton]".data cs
  if (r.takeWhile pySpace).isEmpty then none else
  let r ← dropLit "kernel=".data (r.dropWhile pySpace)
  let k := r.takeWhile (fun c => !pySpace c)
  if k.isEmpty then none else
  let r := r.dropWhile (fun c => !pySpace c)
  if (r.takeWhile pySpace).isEmpty then none else
  let r ← dropLit "cpu_launch_ms=".data (r.dropWhile pySpace)
  if (r.takeWhile digitDot).isEmpty then none else
  let r := r.dropWhile digitDot
  if (r.takeWhile pySpace).isEmpty then none else
  let r ← dropLit "gpu_time_ms=".data (r.dropWhile pySpace)
  let d := r.takeWhile digitDot
  if d.isEmpty then none else some (k, d)

/-- Tail of pattern 2 after the optional bracket group:
`\s+cpu_launch_ms=[\d.]+\s+gpu_time_ms=([\d.]+)`. -/
def p2Tail (r : List Char) : Option (List Char) := do
  if (r.takeWhile pySpace).isEmpty then none else
  let r ← dropLit "cpu_launch_ms=".data (r.dropWhile pySpace)
  if (r.takeWhile digitDot).isEmpty then none else
  let r := r.dropWhile digitDot
  if (r.takeWhile pySpace).isEmpty then none else
  let r ← dropLit "gpu_time_ms=".data (r.dropWhile pySpace)
  let d := r.takeWhile digitDot
  if d.isEmpty then none else some d

/-- The lazy `.*?\]` of pattern 2: try each closing bracket left to right and
match the pattern tail after it. -/
def closeScan : List Char → Option (List Char)
  | [] => none
  | c :: rest =>
    if c = ']' then
      match p2Tail rest with
      | some d => some d
      | none => closeScan rest
    else closeScan rest

/-- Anchored matcher for pattern 2 of `parse_baseline_compute_sanitizer`:
`\[triton-profiler\]\s+kernel=(\S+)(?:\s+\[.*?\])?\s+cpu_launch_ms=[\d.]+\s+gpu_time_ms=([\d.]+)`. -/
def p2At (cs : List Char) : Option (List Char × List Char) := do
  let r ← dropLit "[triton-profiler]".data cs
  if (r.takeWhile pySpace).isEmpty then none else
  let r ← dropLit "kernel=".data (r.dropWhile pySpace)
  let k := r.takeWhile (fun c => !pySpace c)
  if k.isEmpty then none else
  let r := r.dropWhile (fun c => !pySpace c)
  let withGroup : Option (List Char) :=
    if (r.takeWhile pySpace).isEmpty then none
    else
      match r.dropWhile pySpace with
      | '[' :: rest => closeScan rest
      | _ => none
  match withGroup with
  | some d => some (k, d)
  | none =>
    match p2Tail r with
    | some d => some (k, d)
    | none => none

/-- The metric matcher of `parse_baseline_compute_sanitizer`: pattern 1 is
tried first, pattern 2 only if pattern 1 did not match. -/
def metricBaseline (line : List Char) : Option (List Char × List Char) :=
  match scanFor p1At line with
  | some kv => some kv
  | none => scanFor p2At line

/-- Anchored matcher for the Triton-Viz pattern of `parse_triton_sanitizer`:
`Triton-Viz:\s+execution time for\s+(\S+):\s+([\d.]+)\s+ms`.  The greedy
`(\S+)` backtracks exactly one character to satisfy the following `:\s+`,
so it matches a maximal nonspace run whose last character is a colon. -/
def tvAt (cs : List Char) : Option (List Char × List Char) := do
  let r ← dropLit "Triton-Viz:".data cs
  if (r.takeWhile pySpace).isEmpty then none else
  let r ← dropLit "execution time for".data (r.dropWhile pySpace)
  if (r.takeWhile pySpace).isEmpty then none else
  let r := r.dropWhile pySpace
  let run := r.takeWhile (fun c => !pySpace c)
  let r := r.dropWhile (fun c => !pySpace c)
  if run.length < 2 then none else
  if run.getLast? ≠ some ':' then none else
  if (r.takeWhile pySpace).isEmpty then none else
  let r := r.dropWhile pySpace
  let d := r.takeWhile digitDot
  if d.isEmpty then none else
  let r := r.dropWhile digitDot
  if (r.takeWhile pySpace).isEmpty then none else
  let _ ← dropLit "ms".data (r.dropWhile pySpace)
  some (run.dropLast, d)

/-- The metric matcher of `parse_triton_sanitizer`. -/
def metricTriton (line : List Char) : Option (List Char × List Char) :=
  scanFor tvAt line

/-- One emitted log record: (test identifier, kernel name, metric value in
milliseconds).  The `defaultdict(list)` of the source groups these records by
test identifier; the flat emission list carries the same information. -/
abbrev LogRecord := List Char × List Char × ℚ

/-- The per-file mutable state of the parse loop: `test_number`, `test_name`
(both `None` initially) and the records emitted so far. -/
structure PState where
  number : Option (List Char)
  name : Option (List Char)
  out : List LogRecord
deriving DecidableEq, Repr

/-- The state at the top of the file: no number, no name, no records. -/
def initState : PState := ⟨none, none, []⟩

/-- Python truthiness for the optional string state: `None` and the empty
string are falsy. -/
def truthy : Option (List Char) → Bool
  | none => false
  | some l => !l.isEmpty

/-- The header part of one loop iteration of the parse functions: the
`Test Number:` match updates `test_number`; the `Test:` match sets
`test_name` (stripped, and prefixed with `<number>_` when both number and
new name are truthy); the pytest match overwrites `test_name`. -/
def stepHeader (s : PState) (line : List Char) : PState :=
  let s1 :=
    match matchTestNumber line with
    | some d => { s with number := some d }
    | none => s
  let s2 :=
    match matchTestName line with
    | some raw =>
      let nm := pyStrip raw
      let nm :=
        if truthy s1.number && !nm.isEmpty then s1.number.getD [] ++ '_' :: nm
        else nm
      { s1 with name := some nm }
    | none => s1
  match matchPytest line with
  | some p => { s2 with name := some p }
  | none => s2

/-- One full loop iteration: header updates, then the metric match.  A metric
match with a truthy current test name converts the captured group with
`float()`; a conversion failure raises (modelled as `Except.error`), which the
file-level `except` clause of the source turns into an empty result. -/
def stepLine (metric : List Char → Option (List Char × List Char))
    (s : PState) (line : List Char) : Except Unit PState :=
  match metric line with
  | some kv =>
    if truthy (stepHeader s line).name then
      match pyFloat kv.2 with
      | some q =>
        .ok { stepHeader s line with
              out := (stepHeader s line).out ++
                [((stepHeader s line).name.getD [], kv.1, q)] }
      | none => .error ()
    else .ok (stepHeader s line)
  | none => .ok (stepHeader s line)

/-- Run the parse loop over the lines of one file. -/
def runLines (metric : List Char → Option (List Char × List Char)) :
    PState → List (List Char) → Except Unit PState
  | s, [] => .ok s
  | s, l :: ls =>
    match stepLine metric s l with
    | .ok s' => runLines metric s' ls
    | .error e => .error e

/-- Parse one log file's lines with the given metric matcher: the records
emitted in order, or the empty result when any exception was raised (the
source's `except Exception` prints an error and returns `{}`). -/
def parseLog (metric : List Char → Option (List Char × List Char))
    (lines : List (List Char)) : List LogRecord :=
  match runLines metric initState lines with
  | .ok s => s.out
  | .error _ => []

/-- `parse_baseline_compute_sanitizer` of analyze_kernel_time.py on a file's
lines (file content given directly; the `FileNotFoundError` branch is outside
the claims). -/
def parse_baseline_compute_sanitizer (lines : List (List Char)) : List LogRecord :=
  parseLog metricBaseline lines

/-- `parse_triton_sanitizer` of analyze_kernel_time.py /
analyze_ablation_kernel_time.py on a file's lines. -/
def parse_triton_sanitizer (lines : List (List Char)) : List LogRecord :=
  parseLog metricTriton lines

/-- `calculate_totals` of analyze_kernel_time.py, viewed at one test
identifier: total time and number of measurements of the records grouped
under that identifier. -/
def calculate_totals (recs : List LogRecord) (t : List Char) : ℚ × Nat :=
  let ms := (recs.filter (fun r => r.1 = t)).map (fun r => r.2.2)
  (ms.sum, ms.length)

/-- `normalize_test_name`, step 1: `test_name[:test_name.index('[')]` when a
bracket is present (everything from the first `[` onward is dropped). -/
def truncBracket (l : List Char) : List Char :=
  l.takeWhile (fun c => c ≠ '[')

/-- `normalize_test_name`, step 2: `re.sub(r'^\d+_', '', test_name)` — one
leading maximal digit run followed by an underscore is removed. -/
def stripNumUnderscore (l : List Char) : List Char :=
  let d := l.takeWhile Char.isDigit
  match l.dropWhile Char.isDigit with
  | '_' :: rest => if d.isEmpty then l else rest
  | _ => l

/-- `normalize_test_name` of analyze_kernel_time.py /
analyze_ablation_kernel_time.py. -/
def normalize_test_name (l : List Char) : List Char :=
  stripNumUnderscore (truncBracket l)

/-- Whether `re.sub(r'^\d+_', '', l)` would remove a prefix: a nonempty
leading digit run followed by an underscore. -/
def hasNumUnderscore (l : List Char) : Bool :=
  !(l.takeWhile Char.isDigit).isEmpty &&
    (l.dropWhile Char.isDigit).head? = some '_'

/-- One aggregated totals entry as consumed by `aggregate_by_function`:
(test identifier, (total_ms, count)). -/
abbrev TotalsEntry := List Char × ℚ × Nat

/-- One aggregated output entry of `aggregate_by_function`:
(normalized identifier, (total_ms, count, test_variants)). -/
abbrev AggEntry := List Char × ℚ × Nat × Nat

/-- Add one contribution into the association list behind the
`defaultdict(lambda: {'total_ms': 0.0, 'count': 0, 'test_variants': 0})`:
sums are accumulated per normalized key, and a fresh key starts from the
default entry. -/
def addAgg (m : List AggEntry) (k : List Char) (v : ℚ × Nat) : List AggEntry :=
  match m with
  | [] => [(k, v.1, v.2, 1)]
  | (k', t, c, n) :: rest =>
    if k' = k then (k', t + v.1, c + v.2, n + 1) :: rest
    else (k', t, c, n) :: addAgg rest k v

/-- `aggregate_by_function` of analyze_kernel_time.py /
analyze_ablation_kernel_time.py: fold the totals entries, accumulating
`total_ms`, `count` and `test_variants` under the normalized name. -/
def aggregate_by_function (totals : List TotalsEntry) : List AggEntry :=
  totals.foldl (fun m e => addAgg m (normalize_test_name e.1) e.2) []

/-- Sum of the `total_ms` field over a totals mapping. -/
def sumTotalMs (l : List TotalsEntry) : ℚ :=
  (l.map (fun e => e.2.1)).sum

/-- Sum of the `count` field over a totals mapping. -/
def sumCount (l : List TotalsEntry) : Nat :=
  (l.map (fun e => e.2.2)).sum

/-- Sum of the `total_ms` field over an aggregated mapping. -/
def sumAggTotalMs (l : List AggEntry) : ℚ :=
  (l.map (fun e => e.2.1)).sum

/-- Sum of the `count` field over an aggregated mapping. -/
def sumAggCount (l : List AggEntry) : Nat :=
  (l.map (fun e => e.2.2.1)).sum

/-- `re.search(r'(\d+)_', name)` followed by `int(...)`, as used by the
`extract_number` sort key of `find_log_files`: the leftmost maximal digit run
immediately followed by an underscore, or `none` (the source returns
`float('inf')`). -/
def extract_number : List Char → Option Nat
  | [] => none
  | c :: cs =>
    if c.isDigit then
      match cs.dropWhile Char.isDigit with
      | '_' :: _ => some (natOfDigits (c :: cs.takeWhile Char.isDigit))
      | _ => extract_number (cs.dropWhile Char.isDigit)
    else extract_number cs
termination_by l => l.length
decreasing_by
  · exact Nat.lt_succ_of_le (List.dropWhile_sublist _).length_le
  · simp

/-- Comparison on sort keys with `none` playing `float('inf')`: every number
is below `none`, and `none ≤ none`. -/
def keyLE : Option Nat → Option Nat → Bool
  | _, none => true
  | none, some _ => false
  | some a, some b => a ≤ b

/-- The final path component of a relative path (`Path.name`). -/
def fileName (p : List Char) : List Char :=
  (p.reverse.takeWhile (fun c => c ≠ '/')).reverse

/-- Whether a name matches the glob pattern `*.log`. -/
def isLogName (n : List Char) : Bool :=
  ".log".data.isSuffixOf n

/-- `find_log_files` of analyze_kernel_time.py /
analyze_ablation_kernel_time.py, after the configuration directory has been
chosen.  The directory is modelled by the list of relative paths of the files
it contains (path components separated by `'/'`).  `run.log` is appended if
present, then the direct `*.log` children (glob `*.log`) and all descendants
whose final component matches `*.log` (glob `**/*.log`); duplicates are
removed (`list(set(...))`) and the result is sorted by the `extract_number`
key of the filename, missing numbers sorting last (`float('inf')`). -/
def find_log_files (files : List (List Char)) : List (List Char) :=
  let runPart := if "run.log".data ∈ files then ["run.log".data] else []
  let glob1 := files.filter (fun p => !p.contains '/' && isLogName p)
  let glob2 := files.filter (fun p => isLogName (fileName p))
  let deduped := (runPart ++ glob1 ++ glob2).dedup
  deduped.mergeSort
    (fun a b => keyLE (extract_number (fileName a)) (extract_number (fileName b)))

/-- Python's substring test `'Block Tensor Not Supported' in s`. -/
def containsBTNS (l : List Char) : Bool :=
  decide ("Block Tensor Not Supported".data <:+: l)

/-- `calculate_overhead` of calculate_end_to_end_overhead.py (identical to
`calculate_kernel_overhead` of calculate_kernel_only_overhead.py).  Each row
is represented by its pair of relevant cells
`(row[sanitizer_col], row[baseline_col])`.  A pair is skipped when either
stripped cell is empty, `FAILED`, or contains `Block Tensor Not Supported`;
a `float()` conversion failure is caught and skips the pair; a ratio is
appended only when the baseline value is positive. -/
def calculate_overhead : List (List Char × List Char) → List ℚ
  | [] => []
  | (sv, bv) :: rest =>
    let s := pyStrip sv
    let b := pyStrip bv
    let tail := calculate_overhead rest
    if s.isEmpty || b.isEmpty || s = "FAILED".data || b = "FAILED".data
        || containsBTNS s || containsBTNS b then tail
    else
      match pyFloat s, pyFloat b with
      | some sq, some bq => if 0 < bq then sq / bq :: tail else tail
      | _, _ => tail

/-- Round `q * 1000` to the nearest integer, ties to even — the rounding of
Python's fixed-point `.3f` formatting, idealized to exact arithmetic.  With
`n = 1000 * q.num` and `d = q.den`, the floor is `n.fdiv d` and the leftover
fraction is compared with one half via `2 * (n - floor * d)` against `d`. -/
def roundHalfEven3 (q : ℚ) : ℤ :=
  let n := 1000 * q.num
  let d := (q.den : ℤ)
  let f := Int.fdiv n d
  let r2 := 2 * (n - f * d)
  if d < r2 then f + 1
  else if r2 < d then f
  else if f % 2 = 0 then f else f + 1

/-- Decimal digits of a natural number, padded on the left with zeros to
width 3 (the fractional part of a `.3f` rendering). -/
def pad3 (n : Nat) : List Char :=
  let d := (Nat.repr n).data
  List.replicate (3 - d.length) '0' ++ d

/-- Model of the Python f-string `f"{x:.3f}"` on exact rationals: round to
three decimal places (ties to even) and render with exactly three fractional
digits. -/
def fmt3 (q : ℚ) : List Char :=
  let m := roundHalfEven3 q
  let sign := if m < 0 then ['-'] else ([] : List Char)
  let a := m.natAbs
  sign ++ (Nat.repr (a / 1000)).data ++ '.' :: pad3 (a % 1000)

/-- `dict.get(name, {}).get('total_ms', 0.0)` on an aggregated mapping:
the accumulated total, or `0.0` for an absent key. -/
def lookupAggTotal (m : List AggEntry) (k : List Char) : ℚ :=
  match m.find? (fun e => e.1 = k) with
  | some e => e.2.1
  | none => 0

/-- The keys of a totals mapping. -/
def totalsKeys (m : List TotalsEntry) : List (List Char) :=
  m.map (fun e => e.1)

/-- The keys of an aggregated mapping. -/
def aggKeys (m : List AggEntry) : List (List Char) :=
  m.map (fun e => e.1)

/-- The `all_original_tests` dictionary of `export_to_csv`: for each
normalized name, the first original test name encountered over the three
totals mappings in order. -/
def allOriginal (keys : List (List Char)) : List (List Char × List Char) :=
  keys.foldl
    (fun m k =>
      let n := normalize_test_name k
      if (m.find? (fun e => e.1 = n)).isSome then m else m ++ [(n, k)])
    []

/-- The `extract_test_number` sort key of `export_to_csv`:
`re.search(r'^(\d+)_', original)` is anchored, so it reads a leading digit
run followed by an underscore from the original name recorded in
`all_original_tests` (falling back to the normalized name itself). -/
def leadNumKey (orig : List (List Char × List Char)) (name : List Char) : Option Nat :=
  let o := match orig.find? (fun e => e.1 = name) with
    | some e => e.2
    | none => name
  if hasNumUnderscore o then some (natOfDigits (o.takeWhile Char.isDigit)) else none

/-- One row of the exported CSV: the normalized test name and the three
formatted per-configuration cells. -/
structure CsvRow where
  test : List Char
  baseline : List Char
  compute : List Char
  triton : List Char
deriving DecidableEq, Repr

/-- `export_to_csv` of analyze_kernel_time.py, modelled up to the row list
handed to the CSV writer: aggregate each configuration by normalized name,
take the union of the aggregated keys, sort by the original file number
(missing numbers last), and render each cell with `f"{...:.3f}"` using `0.0`
for tests absent from a configuration.  The union of keys is deduplicated
deterministically (the source's `set` fixes no order; only ordering among
equal sort keys depends on it). -/
def export_to_csv (b c t : List TotalsEntry) : List CsvRow :=
  let orig := allOriginal (totalsKeys b ++ totalsKeys c ++ totalsKeys t)
  let bAgg := aggregate_by_function b
  let cAgg := aggregate_by_function c
  let tAgg := aggregate_by_function t
  let tests := (aggKeys bAgg ++ aggKeys cAgg ++ aggKeys tAgg).dedup
  let sorted := tests.mergeSort
    (fun x y => keyLE (leadNumKey orig x) (leadNumKey orig y))
  sorted.map (fun name =>
    ⟨name, fmt3 (lookupAggTotal bAgg name), fmt3 (lookupAggTotal cAgg name),
      fmt3 (lookupAggTotal tAgg name)⟩)

end KernelTime

namespace KernelTime

lemma not_bracket_mem_truncBracket (l : List Char) : '[' ∉ truncBracket l := by
  intro h
  have := List.mem_takeWhile_imp h
  simp at this

lemma stripNumUnderscore_subset (l : List Char) : stripNumUnderscore l ⊆ l := by
  unfold stripNumUnderscore
  split
  · next rest heq =>
    by_cases hd : (List.takeWhile Char.isDigit l).isEmpty = true
    · simp only [hd, if_true]
      exact fun a ha => ha
    · simp only [hd, if_false]
      intro a ha
      have h1 : a ∈ l.dropWhile Char.isDigit := by
        rw [heq]; exact List.mem_cons_of_mem _ ha
      exact (List.dropWhile_sublist _).subset h1
  · exact fun a ha => ha

lemma truncBracket_of_not_mem {l : List Char} (h : '[' ∉ l) : truncBracket l = l := by
  unfold truncBracket
  rw [List.takeWhile_eq_self_iff]
  intro x hx
  simp only [decide_eq_true_eq]
  intro hx'
  exact h (hx' ▸ hx)

lemma stripNumUnderscore_of_none {l : List Char} (h : hasNumUnderscore l = false) :
    stripNumUnderscore l = l := by
  unfold hasNumUnderscore at h
  unfold stripNumUnderscore
  split
  · next rest heq =>
    rw [heq] at h
    simp at h
    simp [h]
  · rfl

/-- C3 (amended): the normalizer is idempotent on every input whose
normalized form does not itself begin with a `<digits>_` prefix. -/
theorem c3_normalize_idempotent_when_stable (l : List Char)
    (h : hasNumUnderscore (normalize_test_name l) = false) :
    normalize_test_name (normalize_test_name l) = normalize_test_name l := by
  have hb : '[' ∉ normalize_test_name l := by
    intro hmem
    exact not_bracket_mem_truncBracket l (stripNumUnderscore_subset _ hmem)
  calc normalize_test_name (normalize_test_name l)
      = stripNumUnderscore (truncBracket (normalize_test_name l)) := rfl
    _ = stripNumUnderscore (normalize_test_name l) := by
        rw [truncBracket_of_not_mem hb]
    _ = normalize_test_name l := stripNumUnderscore_of_none h

/-- C3 witness: a concrete instantiation of the amended idempotence. -/
theorem c3_normalize_idempotent_when_stable_witness :
    normalize_test_name (normalize_test_name "01_suite/test[param]".data) =
      normalize_test_name "01_suite/test[param]".data :=
  c3_normalize_idempotent_when_stable "01_suite/test[param]".data (by decide)

/-- C3 counterexample: normalization is not idempotent in general — the
`^\d+_` strip can expose a second strippable prefix. -/
theorem c3_normalize_not_idempotent_cex :
    ¬ (normalize_test_name (normalize_test_name "1_2_a".data) =
        normalize_test_name "1_2_a".data) := by decide

/-- C6: normalizing `"01_suite/test[param]"` yields `"suite/test"`. -/
theorem c6_normalize_example :
    normalize_test_name "01_suite/test[param]".data = "suite/test".data := by decide

/-- C5: per-test totals (exact sums and counts) are invariant under
permutation of the record sequence. -/
theorem c5_totals_perm_invariant (r r' : List LogRecord) (h : r.Perm r')
    (t : List Char) : calculate_totals r t = calculate_totals r' t := by
  unfold calculate_totals
  have hp : ((r.filter (fun x => x.1 = t)).map (fun x => x.2.2)).Perm
      ((r'.filter (fun x => x.1 = t)).map (fun x => x.2.2)) :=
    (h.filter _).map _
  simp only [Prod.mk.injEq]
  exact ⟨hp.sum_eq, hp.length_eq⟩

/-- C5 witness: swapping two concrete records leaves the totals unchanged. -/
theorem c5_totals_perm_invariant_witness :
    calculate_totals [("t".data, "k1".data, (5 : ℚ)/2), ("t".data, "k2".data, (7 : ℚ)/2)] "t".data =
      calculate_totals [("t".data, "k2".data, (7 : ℚ)/2), ("t".data, "k1".data, (5 : ℚ)/2)] "t".data :=
  c5_totals_perm_invariant _ _ (List.Perm.swap _ _ _) _

end KernelTime

namespace KernelTime

lemma sumAggTotalMs_addAgg (m : List AggEntry) (k : List Char) (v : ℚ × Nat) :
    sumAggTotalMs (addAgg m k v) = sumAggTotalMs m + v.1 := by
  induction m with
  | nil => simp [addAgg, sumAggTotalMs]
  | cons e rest ih =>
    obtain ⟨k', t, c, n⟩ := e
    unfold addAgg
    by_cases hk : k' = k
    · simp [hk, sumAggTotalMs]
      ring
    · simp [hk, sumAggTotalMs] at ih ⊢
      rw [ih]
      ring

lemma sumAggCount_addAgg (m : List AggEntry) (k : List Char) (v : ℚ × Nat) :
    sumAggCount (addAgg m k v) = sumAggCount m + v.2 := by
  induction m with
  | nil => simp [addAgg, sumAggCount]
  | cons e rest ih =>
    obtain ⟨k', t, c, n⟩ := e
    unfold addAgg
    by_cases hk : k' = k
    · simp [hk, sumAggCount]
      omega
    · simp [hk, sumAggCount] at ih ⊢
      omega

lemma aggregate_foldl_total (ts : List TotalsEntry) :
    ∀ m : List AggEntry,
      sumAggTotalMs (ts.foldl (fun m e => addAgg m (normalize_test_name e.1) e.2) m) =
        sumAggTotalMs m + sumTotalMs ts := by
  induction ts with
  | nil => intro m; simp [sumTotalMs]
  | cons e rest ih =>
    intro m
    simp only [List.foldl_cons]
    rw [ih, sumAggTotalMs_addAgg]
    simp [sumTotalMs]
    ring

lemma aggregate_foldl_count (ts : List TotalsEntry) :
    ∀ m : List AggEntry,
      sumAggCount (ts.foldl (fun m e => addAgg m (normalize_test_name e.1) e.2) m) =
        sumAggCount m + sumCount ts := by
  induction ts with
  | nil => intro m; simp [sumCount]
  | cons e rest ih =>
    intro m
    simp only [List.foldl_cons]
    rw [ih, sumAggCount_addAgg]
    simp [sumCount]
    omega

/-- C9: `aggregate_by_function` preserves the grand totals — the sum of
`total_ms` and the sum of `count` over the grouped output equal the sums over
the input mapping. -/
theorem c9_aggregate_preserves_sums (totals : List TotalsEntry) :
    sumAggTotalMs (aggregate_by_function totals) = sumTotalMs totals ∧
      sumAggCount (aggregate_by_function totals) = sumCount totals := by
  unfold aggregate_by_function
  constructor
  · rw [aggregate_foldl_total]
    simp [sumAggTotalMs]
  · rw [aggregate_foldl_count]
    simp [sumAggCount]

/-- C2 (amended): a (sanitizer, baseline) pair contributes no ratio entry —
and raises no exception — whenever either stripped cell is empty or
`FAILED`, or the baseline value parses to a nonpositive number (in
particular zero, as for sanitizer=10.0, baseline=0.0).  A sanitizer value of
zero is not by itself a skip condition. -/
theorem c2_skip_conditions (sv bv : List Char) (rest : List (List Char × List Char))
    (h : pyStrip sv = [] ∨ pyStrip bv = [] ∨ pyStrip sv = "FAILED".data ∨
      pyStrip bv = "FAILED".data ∨ (∃ q, pyFloat (pyStrip bv) = some q ∧ q ≤ 0)) :
    calculate_overhead ((sv, bv) :: rest) = calculate_overhead rest := by
  rcases h with h | h | h | h | ⟨q, hq, hq0⟩
  · simp [calculate_overhead, h]
  · simp [calculate_overhead, h]
  · simp [calculate_overhead, h]
  · simp [calculate_overhead, h]
  · simp only [calculate_overhead]
    split
    · rfl
    · rw [hq]
      cases hs : pyFloat (pyStrip sv) with
      | none => rfl
      | some sq => simp [not_lt.2 hq0]

/-- C2 witness: the pair sanitizer=10.0, baseline=0.0 produces no ratio
entry and no exception. -/
theorem c2_skip_conditions_witness :
    calculate_overhead [("10.0".data, "0.0".data)] = [] :=
  c2_skip_conditions "10.0".data "0.0".data []
    (Or.inr (Or.inr (Or.inr (Or.inr ⟨0, by decide, by decide⟩))))

/-- C2 counterexample: a sanitizer value of zero with a positive baseline is
not skipped — the pair contributes a ratio entry — so the claim that a pair
is skipped whenever either value is zero is false. -/
theorem c2_zero_sanitizer_not_skipped_cex :
    calculate_overhead [("0.0".data, "2.0".data)] ≠ [] := by decide

end KernelTime


namespace KernelTime

lemma stepHeader_out (s : PState) (line : List Char) :
    (stepHeader s line).out = s.out := by
  unfold stepHeader
  cases matchTestNumber line <;> cases matchTestName line <;>
    cases matchPytest line <;> rfl

lemma stepHeader_name_of_none {line : List Char} (s : PState)
    (h1 : matchTestName line = none) (h2 : matchPytest line = none) :
    (stepHeader s line).name = s.name := by
  unfold stepHeader
  rw [h1, h2]
  cases matchTestNumber line <;> rfl

lemma runLines_append (metric : List Char → Option (List Char × List Char))
    (l1 l2 : List (List Char)) (s : PState) :
    runLines metric s (l1 ++ l2) =
      match runLines metric s l1 with
      | .ok s' => runLines metric s' l2
      | .error e => .error e := by
  induction l1 generalizing s with
  | nil => simp [runLines]
  | cons l ls ih =>
    simp only [List.cons_append, runLines]
    cases stepLine metric s l with
    | ok s' => exact ih s'
    | error e => rfl

lemma runLines_no_metric (metric : List Char → Option (List Char × List Char)) :
    ∀ (lines : List (List Char)) (s : PState), (∀ l ∈ lines, metric l = none) →
      ∃ s', runLines metric s lines = .ok s' ∧ s'.out = s.out := by
  intro lines
  induction lines with
  | nil => exact fun s _ => ⟨s, rfl, rfl⟩
  | cons l ls ih =>
    intro s h
    have hstep : stepLine metric s l = .ok (stepHeader s l) := by
      unfold stepLine
      rw [h l (List.mem_cons_self _ _)]
    obtain ⟨s', h1, h2⟩ := ih (stepHeader s l)
      (fun l' hl' => h l' (List.mem_cons_of_mem _ hl'))
    exact ⟨s', by simp only [runLines, hstep]; exact h1, by rw [h2, stepHeader_out]⟩

lemma runLines_no_ident (metric : List Char → Option (List Char × List Char)) :
    ∀ (lines : List (List Char)) (s : PState),
      (∀ l ∈ lines, matchTestName l = none ∧ matchPytest l = none) → s.name = none →
      ∃ s', runLines metric s lines = .ok s' ∧ s'.out = s.out ∧ s'.name = none := by
  intro lines
  induction lines with
  | nil => exact fun s _ hn => ⟨s, rfl, rfl, hn⟩
  | cons l ls ih =>
    intro s h hn
    have hname : (stepHeader s l).name = none := by
      rw [stepHeader_name_of_none s (h l (List.mem_cons_self _ _)).1
        (h l (List.mem_cons_self _ _)).2, hn]
    have hstep : stepLine metric s l = .ok (stepHeader s l) := by
      unfold stepLine
      cases hm : metric l with
      | none => rfl
      | some kv => rw [hname]; rfl
    obtain ⟨s', h1, h2, h3⟩ := ih (stepHeader s l)
      (fun l' hl' => h l' (List.mem_cons_of_mem _ hl')) hname
    exact ⟨s', by simp only [runLines, hstep]; exact h1, by rw [h2, stepHeader_out], h3⟩

/-- C4: the extractor emits a record only when a line matches the metric
pattern and a truthy test identifier is current; a prefix of lines with no
identifier line yields no records and no exception; a log with no matching
metric line yields the empty mapping with no exception. -/
theorem c4_records_require_metric_and_ident :
    (∀ (metric : List Char → Option (List Char × List Char)) lines,
      (∀ l ∈ lines, metric l = none) → parseLog metric lines = []) ∧
    (∀ (metric : List Char → Option (List Char × List Char)) l1,
      (∀ l ∈ l1, matchTestName l = none ∧ matchPytest l = none) →
      ∃ s', runLines metric initState l1 = .ok s' ∧ s'.out = [] ∧ s'.name = none) ∧
    (∀ (metric : List Char → Option (List Char × List Char)) s line s',
      stepLine metric s line = .ok s' → s'.out ≠ s.out →
      (∃ kv, metric line = some kv) ∧ truthy (stepHeader s line).name = true) := by
  refine ⟨?_, ?_, ?_⟩
  · intro metric lines h
    obtain ⟨s', h1, h2⟩ := runLines_no_metric metric lines initState h
    unfold parseLog
    rw [h1]
    exact h2
  · intro metric l1 h
    exact runLines_no_ident metric l1 initState h rfl
  · intro metric s line s' hs hout
    unfold stepLine at hs
    cases hm : metric line with
    | none =>
      rw [hm] at hs
      simp only [Except.ok.injEq] at hs
      exact absurd (hs ▸ stepHeader_out s line) hout
    | some kv =>
      rw [hm] at hs
      by_cases htr : truthy (stepHeader s line).name = true
      · exact ⟨⟨kv, rfl⟩, htr⟩
      · rw [Bool.not_eq_true] at htr
        rw [htr] at hs
        simp only [Bool.false_eq_true, if_false, Except.ok.injEq] at hs
        exact absurd (hs ▸ stepHeader_out s line) hout

/-- C4 witness: a metric line before any identifier line, and an
identifier-only log, both yield the empty mapping. -/
theorem c4_records_require_metric_and_ident_witness :
    parseLog metricBaseline
      ["[liger][triton] kernel=k cpu_launch_ms=1.0 gpu_time_ms=2.0".data] = [] ∧
    parseLog metricBaseline ["Test: foo".data, "hello world".data] = [] := by
  constructor
  · obtain ⟨s', h1, h2, _⟩ :=
      c4_records_require_metric_and_ident.2.1 metricBaseline
        ["[liger][triton] kernel=k cpu_launch_ms=1.0 gpu_time_ms=2.0".data] (by decide)
    unfold parseLog
    rw [h1]
    exact h2
  · exact c4_records_require_metric_and_ident.1 metricBaseline
      ["Test: foo".data, "hello world".data] (by decide)

end KernelTime

namespace KernelTime

/-- C1 counterexample: a metric line whose captured numeric group `1.2.3`
fails float conversion discards the whole file — the same file without that
line yields a record, with the line it yields nothing. -/
theorem c1_float_failure_discards_file_cex :
    parse_baseline_compute_sanitizer
      ["Test: foo".data,
       "[liger][triton] kernel=k cpu_launch_ms=1.0 gpu_time_ms=2.0".data,
       "[liger][triton] kernel=k cpu_launch_ms=1.0 gpu_time_ms=1.2.3".data] = [] ∧
    parse_baseline_compute_sanitizer
      ["Test: foo".data,
       "[liger][triton] kernel=k cpu_launch_ms=1.0 gpu_time_ms=2.0".data] =
      [("foo".data, "k".data, 2)] := by
  exact ⟨by decide, by decide⟩

/-- C1 (amended): when a metric line's captured numeric group fails float
conversion while a truthy test identifier is current, the whole file is
discarded: the parser returns the empty mapping, dropping the records of all
other lines. -/
theorem c1_float_failure_aborts_file
    (metric : List Char → Option (List Char × List Char))
    (l1 l2 : List (List Char)) (line : List Char) (s : PState)
    (kv : List Char × List Char)
    (h1 : runLines metric initState l1 = .ok s)
    (h2 : metric line = some kv)
    (h3 : truthy (stepHeader s line).name = true)
    (h4 : pyFloat kv.2 = none) :
    parseLog metric (l1 ++ line :: l2) = [] := by
  have hstep : stepLine metric s line = .error () := by
    unfold stepLine
    simp [h2, h3, h4]
  have hrun : runLines metric s (line :: l2) = .error () := by
    simp only [runLines, hstep]
  unfold parseLog
  rw [runLines_append metric l1 (line :: l2) initState, h1]
  simp only [hrun]

instance : DecidableEq (Except Unit PState) := fun a b =>
  match a, b with
  | .ok x, .ok y =>
    if h : x = y then isTrue (by rw [h]) else isFalse (by simp [h])
  | .error x, .error y => isTrue (by cases x; cases y; rfl)
  | .ok _, .error _ => isFalse (by simp)
  | .error _, .ok _ => isFalse (by simp)

/-- C1 witness: a concrete file whose third line carries the unconvertible
group `1.2.3` parses to the empty mapping. -/
theorem c1_float_failure_aborts_file_witness :
    parseLog metricBaseline
      (["Test: foo".data,
        "[liger][triton] kernel=k cpu_launch_ms=1.0 gpu_time_ms=2.0".data] ++
       "[liger][triton] kernel=k cpu_launch_ms=1.0 gpu_time_ms=1.2.3".data :: []) = [] :=
  c1_float_failure_aborts_file metricBaseline
    ["Test: foo".data,
     "[liger][triton] kernel=k cpu_launch_ms=1.0 gpu_time_ms=2.0".data] []
    "[liger][triton] kernel=k cpu_launch_ms=1.0 gpu_time_ms=1.2.3".data
    ⟨none, some "foo".data, [("foo".data, "k".data, 2)]⟩
    ("k".data, "1.2.3".data)
    (by decide) (by decide) (by decide) (by decide)

/-- C10: within one file, a `Test Number:` match alone never changes the
current test identifier; the stored number is combined only when a later
`Test:` line arrives, which then sets `<number>_<name>`; a `Test:` line with
no stored number sets the bare name; the stored number is never cleared; and
the metric branch never alters either state component. -/
theorem c10_header_state_invariants
    (metric : List Char → Option (List Char × List Char))
    (s : PState) (line : List Char) :
    (matchTestName line = none → matchPytest line = none →
      (stepHeader s line).name = s.name) ∧
    (∀ d, matchTestNumber line = some d → (stepHeader s line).number = some d) ∧
    (matchTestNumber line = none → (stepHeader s line).number = s.number) ∧
    ((stepHeader s line).number = none → s.number = none) ∧
    (∀ raw d, matchTestName line = some raw → matchPytest line = none →
      matchTestNumber line = none → s.number = some d → d ≠ [] → pyStrip raw ≠ [] →
      (stepHeader s line).name = some (d ++ '_' :: pyStrip raw)) ∧
    (∀ raw, matchTestName line = some raw → matchPytest line = none →
      matchTestNumber line = none → s.number = none →
      (stepHeader s line).name = some (pyStrip raw)) ∧
    (∀ s', stepLine metric s line = .ok s' →
      s'.name = (stepHeader s line).name ∧ s'.number = (stepHeader s line).number) := by
  refine ⟨?_, ?_, ?_, ?_, ?_, ?_, ?_⟩
  · exact fun h1 h2 => stepHeader_name_of_none s h1 h2
  · intro d hd
    unfold stepHeader
    rw [hd]
    cases matchTestName line <;> cases matchPytest line <;> rfl
  · intro hd
    unfold stepHeader
    rw [hd]
    cases matchTestName line <;> cases matchPytest line <;> rfl
  · intro h
    cases hn : matchTestNumber line with
    | none =>
      unfold stepHeader at h
      rw [hn] at h
      cases hm : matchTestName line <;> rw [hm] at h <;>
        cases hp : matchPytest line <;> rw [hp] at h <;> exact h
    | some d =>
      exfalso
      unfold stepHeader at h
      rw [hn] at h
      cases hm : matchTestName line <;> rw [hm] at h <;>
        cases hp : matchPytest line <;> rw [hp] at h <;> simp at h
  · intro raw d hraw hp hn hsd hdne hstrip
    unfold stepHeader
    rw [hn, hraw, hp]
    dsimp only
    rw [hsd]
    simp [truthy, List.isEmpty_iff, hdne, hstrip]
  · intro raw hraw hp hn hsd
    unfold stepHeader
    rw [hn, hraw, hp]
    dsimp only
    rw [hsd]
    simp [truthy]
  · intro s' hs
    unfold stepLine at hs
    cases hm : metric line with
    | none =>
      rw [hm] at hs
      simp only [Except.ok.injEq] at hs
      rw [← hs]
      exact ⟨rfl, rfl⟩
    | some kv =>
      rw [hm] at hs
      by_cases htr : truthy (stepHeader s line).name = true
      · rw [htr] at hs
        simp only [if_true] at hs
        cases hq : pyFloat kv.2 with
        | none => rw [hq] at hs; simp at hs
        | some q =>
          rw [hq] at hs
          simp only [Except.ok.injEq] at hs
          rw [← hs]
          exact ⟨rfl, rfl⟩
      · rw [Bool.not_eq_true] at htr
        rw [htr] at hs
        simp only [Bool.false_eq_true, if_false, Except.ok.injEq] at hs
        rw [← hs]
        exact ⟨rfl, rfl⟩

/-- C10 witness: concrete header lines acting on concrete states. -/
theorem c10_header_state_invariants_witness :
    (stepHeader ⟨some "01".data, some "old".data, []⟩ "Test Number: 02".data).name =
      some "old".data ∧
    (stepHeader ⟨some "01".data, some "old".data, []⟩ "Test Number: 02".data).number =
      some "02".data ∧
    (stepHeader ⟨some "01".data, some "old".data, []⟩ "Test: foo".data).name =
      some "01_foo".data ∧
    (stepHeader ⟨none, none, []⟩ "Test: foo".data).name = some "foo".data := by
  refine ⟨?_, ?_, ?_, ?_⟩
  · exact (c10_header_state_invariants metricBaseline _ _).1 (by decide) (by decide)
  · exact (c10_header_state_invariants metricBaseline _ _).2.1 "02".data (by decide)
  · exact (c10_header_state_invariants metricBaseline _ _).2.2.2.2.1 "foo".data "01".data
      (by decide) (by decide) (by decide) rfl (by decide) (by decide)
  · exact (c10_header_state_invariants metricBaseline _ _).2.2.2.2.2.1 "foo".data
      (by decide) (by decide) (by decide) rfl

end KernelTime

namespace KernelTime


lemma lookupAggTotal_of_not_mem (m : List AggEntry) (k : List Char)
    (hk : k ∉ aggKeys m) : lookupAggTotal m k = 0 := by
  unfold lookupAggTotal
  have hfind : m.find? (fun e => e.1 = k) = none := by
    rw [List.find?_eq_none]
    intro e he
    simp only [decide_eq_true_eq]
    intro heq
    exact hk (heq ▸ List.mem_map_of_mem (fun e => e.1) he)
  rw [hfind]

/-- C7: every normalized test name present in at least one configuration's
aggregated results gets a CSV row, and each configuration from which the
test is absent contributes the cell string `"0.000"` in that row. -/
theorem c7_csv_absent_zero (b c t : List TotalsEntry) (name : List Char)
    (h : name ∈ aggKeys (aggregate_by_function b) ∨
      name ∈ aggKeys (aggregate_by_function c) ∨
      name ∈ aggKeys (aggregate_by_function t)) :
    ∃ row ∈ export_to_csv b c t, row.test = name ∧
      (name ∉ aggKeys (aggregate_by_function b) → row.baseline = "0.000".data) ∧
      (name ∉ aggKeys (aggregate_by_function c) → row.compute = "0.000".data) ∧
      (name ∉ aggKeys (aggregate_by_function t) → row.triton = "0.000".data) := by
  unfold export_to_csv
  dsimp only
  have hmem : name ∈
      ((aggKeys (aggregate_by_function b) ++ aggKeys (aggregate_by_function c) ++
        aggKeys (aggregate_by_function t)).dedup.mergeSort
        (fun x y =>
          keyLE
            (leadNumKey
              (allOriginal (totalsKeys b ++ totalsKeys c ++ totalsKeys t)) x)
            (leadNumKey
              (allOriginal (totalsKeys b ++ totalsKeys c ++ totalsKeys t)) y))) := by
    rw [List.mem_mergeSort, List.mem_dedup]
    rcases h with h | h | h
    · exact List.mem_append_left _ (List.mem_append_left _ h)
    · exact List.mem_append_left _ (List.mem_append_right _ h)
    · exact List.mem_append_right _ h
  refine ⟨_, List.mem_map_of_mem _ hmem, rfl, ?_, ?_, ?_⟩
  · intro habs
    simp only [lookupAggTotal_of_not_mem _ _ habs]
    decide
  · intro habs
    simp only [lookupAggTotal_of_not_mem _ _ habs]
    decide
  · intro habs
    simp only [lookupAggTotal_of_not_mem _ _ habs]
    decide

/-- C7 witness: a test present only in the baseline configuration gets
`"0.000"` in the compute-sanitizer column of its row. -/
theorem c7_csv_absent_zero_witness :
    ∃ row ∈ export_to_csv [("01_a".data, 1, 1)] [] [],
      row.test = "a".data ∧ row.compute = "0.000".data := by
  obtain ⟨row, hrow, ht, _, hc, _⟩ :=
    c7_csv_absent_zero [("01_a".data, 1, 1)] [] [] "a".data (Or.inl (by decide))
  exact ⟨row, hrow, ht, hc (by decide)⟩

end KernelTime

namespace KernelTime

lemma keyLE_trans : ∀ a b c : Option Nat, keyLE a b = true → keyLE b c = true →
    keyLE a c = true := by
  intro a b c
  cases a <;> cases b <;> cases c <;> simp [keyLE] <;> try omega

lemma keyLE_total : ∀ a b : Option Nat, keyLE a b || keyLE b a := by
  intro a b
  cases a <;> cases b <;> simp [keyLE] <;> try omega

/-- C8: for an existing configuration directory, discovery returns a
duplicate-free list containing exactly `run.log` (when present), the direct
`*.log` children and the recursively found `*.log` descendants, in
nondecreasing order of the numeric `<n>_` key of the filename, with files
lacking such a number after all files that have one. -/
theorem c8_find_log_files_sorted (files : List (List Char)) :
    (find_log_files files).Nodup ∧
    (∀ p, p ∈ find_log_files files ↔
      ((p = "run.log".data ∧ "run.log".data ∈ files) ∨
       (p ∈ files ∧ p.contains '/' = false ∧ isLogName p = true) ∨
       (p ∈ files ∧ isLogName (fileName p) = true))) ∧
    (find_log_files files).Pairwise
      (fun a b => keyLE (extract_number (fileName a)) (extract_number (fileName b)) = true) ∧
    (find_log_files files).Pairwise
      (fun a b => extract_number (fileName a) = none → extract_number (fileName b) = none) := by
  have hsorted : (find_log_files files).Pairwise
      (fun a b =>
        keyLE (extract_number (fileName a)) (extract_number (fileName b)) = true) := by
    unfold find_log_files
    dsimp only
    exact List.sorted_mergeSort
      (fun a b c hab hbc =>
        keyLE_trans (extract_number (fileName a)) (extract_number (fileName b))
          (extract_number (fileName c)) hab hbc)
      (fun a b =>
        keyLE_total (extract_number (fileName a)) (extract_number (fileName b))) _
  refine ⟨?_, ?_, hsorted, ?_⟩
  · unfold find_log_files
    dsimp only
    exact (List.mergeSort_perm _ _).nodup_iff.2 (List.nodup_dedup _)
  · intro p
    unfold find_log_files
    dsimp only
    rw [List.mem_mergeSort, List.mem_dedup, List.mem_append, List.mem_append]
    constructor
    · rintro ((h | h) | h)
      · by_cases hrun : "run.log".data ∈ files
        · rw [if_pos hrun] at h
          simp only [List.mem_singleton] at h
          exact Or.inl ⟨h, hrun⟩
        · rw [if_neg hrun] at h
          simp at h
      · rw [List.mem_filter] at h
        obtain ⟨h1, h2⟩ := h
        rw [Bool.and_eq_true, Bool.not_eq_true'] at h2
        exact Or.inr (Or.inl ⟨h1, h2.1, h2.2⟩)
      · rw [List.mem_filter] at h
        exact Or.inr (Or.inr h)
    · rintro (⟨hp, hrun⟩ | ⟨h1, h2, h3⟩ | ⟨h1, h2⟩)
      · exact Or.inl (Or.inl (by rw [if_pos hrun, hp]; exact List.mem_singleton_self _))
      · refine Or.inl (Or.inr ?_)
        rw [List.mem_filter]
        exact ⟨h1, by rw [Bool.and_eq_true, Bool.not_eq_true']; exact ⟨h2, h3⟩⟩
      · refine Or.inr ?_
        rw [List.mem_filter]
        exact ⟨h1, h2⟩
  · refine hsorted.imp ?_
    intro a b hab ha
    rw [ha] at hab
    cases hb : extract_number (fileName b) with
    | none => rfl
    | some k => rw [hb] at hab; simp [keyLE] at hab

/-- C8 witness: discovery on a concrete directory listing is duplicate-free
and contains a numbered log file. -/
theorem c8_find_log_files_sorted_witness :
    (find_log_files ["run.log".data, "01_a.log".data]).Nodup ∧
    "01_a.log".data ∈ find_log_files ["run.log".data, "01_a.log".data] := by
  have h := c8_find_log_files_sorted ["run.log".data, "01_a.log".data]
  exact ⟨h.1, (h.2.1 "01_a.log".data).2 (Or.inr (Or.inl (by decide)))⟩

end KernelTime
